import Mathlib

/-!
Verification of the fragment-partitioning and rasterization core of
modules/codec/libass.c.

The embedding below is a direct shallow translation of the C functions
`r_create`, `r_img`, `r_add`, `r_surface`, `r_overlap`, `BuildRegions`,
`RegionDraw` and the early-return guard of `SubpictureUpdate`.  C `int`
values are modelled as `Int` (the sentinel `INT_MAX` initializations of
the two best-candidate searches are kept as the literal 2147483647);
pixel bytes are modelled as `Nat` with explicit 0..255 range hypotheses
in the theorems.  The two fixpoint loops of `BuildRegions` are written
with explicit fuel; each iteration of the outer loop assigns at least
the seeded fragment, and each repetition of the inner do-while loop
with `b_ok = true` assigns at least one fragment, so the fuel supplied
at the call sites (number of still-unassigned fragments, plus one for
the inner loop's final no-progress pass) never runs out.
-/

set_option maxRecDepth 4000

/-- Axis-aligned integer rectangle, as `rectangle_t` in the source. -/
structure rectangle_t where
  x0 : Int
  y0 : Int
  x1 : Int
  y1 : Int
deriving Repr, DecidableEq

instance : Inhabited rectangle_t := ⟨⟨0, 0, 0, 0⟩⟩

/-- One bitmap fragment, as the fields of `ASS_Image` used by the code:
destination position, size, stride, opacity bitmap (row-major bytes)
and the 32-bit packed color (high to low bytes: r, g, b, inverted alpha). -/
structure ASS_Image where
  dst_x : Int
  dst_y : Int
  w : Int
  h : Int
  stride : Nat
  bitmap : List Nat
  color : Nat
deriving Repr, DecidableEq

/-- C `INT_MAX`, the sentinel used by the two best-candidate scans. -/
def C_INT_MAX : Int := 2147483647

def r_create (x0 y0 x1 y1 : Int) : rectangle_t := ⟨x0, y0, x1, y1⟩

def r_img (p : ASS_Image) : rectangle_t :=
  r_create p.dst_x p.dst_y (p.dst_x + p.w) (p.dst_y + p.h)

def r_add (r n : rectangle_t) : rectangle_t :=
  ⟨min r.x0 n.x0, min r.y0 n.y0, max r.x1 n.x1, max r.y1 n.y1⟩

def r_surface (r : rectangle_t) : Int := (r.x1 - r.x0) * (r.y1 - r.y0)

def r_overlap (a b : rectangle_t) (i_dx i_dy : Int) : Bool :=
  max (a.x0 - i_dx) b.x0 < min (a.x1 + i_dx) b.x1 &&
  max (a.y0 - i_dy) b.y0 < min (a.y1 + i_dy) b.y1

/-- The proximity increment computed from the canvas width
(`i_w_inc` in `BuildRegions`). -/
def i_w_inc (i_width : Int) : Int := max ((i_width + 49) / 50) 32

/-- The proximity increment computed from the canvas height
(`i_h_inc` in `BuildRegions`). -/
def i_h_inc (i_height : Int) : Int := max ((i_height + 99) / 100) 32

/-- The inner candidate scan of `BuildRegions` (the `k` loop):
running best index and best surface, updated when the candidate region
overlaps and the surface of the fragment rectangle `r` beats the
running best strictly. -/
def findBestAux (r : rectangle_t) (i_dx i_dy : Int) :
    List rectangle_t → Nat → Int → Option Nat → Option Nat
  | [], _, _, i_best => i_best
  | rk :: rest, k, i_best_s, i_best =>
    if r_overlap rk r i_dx i_dy && decide (r_surface r < i_best_s) then
      findBestAux r i_dx i_dy rest (k + 1) (r_surface r) (some k)
    else
      findBestAux r i_dx i_dy rest (k + 1) i_best_s i_best

/-- The candidate-region selection of `BuildRegions` lines 600-613:
`i_best = -1`, `i_best_s = INT_MAX`, then the `k` scan. -/
def findBest (regions : List rectangle_t) (r : rectangle_t) (i_dx i_dy : Int) : Option Nat :=
  findBestAux r i_dx i_dy regions 0 C_INT_MAX none

/-- One pass of the absorption scan (`for n` loop, lines 593-620):
each still-unassigned fragment is absorbed into the selected region,
which grows by `r_add`; the Bool records whether any absorption
happened (`b_ok`). -/
def scanPass (i_dx i_dy : Int) :
    List rectangle_t → List (Option ASS_Image) →
    List rectangle_t × List (Option ASS_Image) × Bool
  | regions, [] => (regions, [], false)
  | regions, none :: rest =>
    let t := scanPass i_dx i_dy regions rest
    (t.1, none :: t.2.1, t.2.2)
  | regions, some img :: rest =>
    let r := r_img img
    match findBest regions r i_dx i_dy with
    | some k =>
      let regions2 := regions.set k (r_add (regions.getD k default) r)
      let t := scanPass i_dx i_dy regions2 rest
      (t.1, none :: t.2.1, true)
    | none =>
      let t := scanPass i_dx i_dy regions rest
      (t.1, some img :: t.2.1, t.2.2)

/-- Number of still-unassigned fragments (`i_count - i_used`). -/
def someCount (l : List (Option ASS_Image)) : Nat := l.countP fun o => o.isSome

/-- The do-while absorption loop of `BuildRegions` (lines 591-621),
with fuel; at each call site the fuel exceeds the number of
still-unassigned fragments, which bounds the number of passes that can
report progress. -/
def absorbLoop (i_dx i_dy : Int) :
    Nat → List rectangle_t → List (Option ASS_Image) →
    List rectangle_t × List (Option ASS_Image)
  | 0, regions, imgs => (regions, imgs)
  | fuel + 1, regions, imgs =>
    let t := scanPass i_dx i_dy regions imgs
    if t.2.2 then absorbLoop i_dx i_dy fuel t.1 t.2.1 else (t.1, t.2.1)

/-- All index pairs `(i, j)` with `i < j < n`, in the scan order of the
collapse search (outer `i` ascending, inner `j` ascending). -/
def pairList (n : Nat) : List (Nat × Nat) :=
  (List.range n).flatMap fun i => ((List.range n).drop (i + 1)).map fun j => (i, j)

/-- Area increase of merging regions `i` and `j`
(`r_surface(union) - r_surface(i) - r_surface(j)`). -/
def ds_of (regions : List rectangle_t) (i j : Nat) : Int :=
  r_surface (r_add (regions.getD i default) (regions.getD j default)) -
    r_surface (regions.getD i default) - r_surface (regions.getD j default)

/-- The pair search of the collapse step (lines 630-645): best pair
so far and its `ds`, starting from `(INT_MAX, none)`, strict
improvement only, so the lexicographically first minimizer wins. -/
def bestPair (regions : List rectangle_t) : Option (Nat × Nat) :=
  ((pairList regions.length).foldl
    (fun acc ij => if ds_of regions ij.1 ij.2 < acc.1 then (ds_of regions ij.1 ij.2, some ij) else acc)
    (C_INT_MAX, (none : Option (Nat × Nat)))).2

/-- The collapse step (lines 623-657): when a best pair was found,
grow region `i` by region `j` and remove region `j`, shifting the
later entries down (the `memmove`). -/
def collapseOnce (regions : List rectangle_t) : List rectangle_t :=
  match bestPair regions with
  | some ij =>
    (regions.set ij.1 (r_add (regions.getD ij.1 default) (regions.getD ij.2 default))).eraseIdx ij.2
  | none => regions

/-- Index and value of the first still-unassigned fragment
(the seed search `for n ... if pp_img[n] break`). -/
def firstSome : List (Option ASS_Image) → Option (Nat × ASS_Image)
  | [] => none
  | some img :: _ => some (0, img)
  | none :: rest => (firstSome rest).map fun t => (t.1 + 1, t.2)

/-- The outer loop of `BuildRegions` (lines 578-658): while some
fragment is unassigned, seed a region from the first one, run the
absorption loop, and collapse once if the region count exceeds the
cap.  The fuel dominates the number of iterations because every
iteration assigns at least the seed. -/
def buildLoop (i_max_region i_dx i_dy : Int) :
    Nat → List rectangle_t → List (Option ASS_Image) → List rectangle_t
  | 0, regions, _ => regions
  | fuel + 1, regions, imgs =>
    match firstSome imgs with
    | none => regions
    | some t =>
      let regions1 := regions ++ [r_img t.2]
      let imgs1 := imgs.set t.1 none
      let u := absorbLoop i_dx i_dy (someCount imgs1 + 1) regions1 imgs1
      let regions2 := if i_max_region < (u.1.length : Int) then collapseOnce u.1 else u.1
      buildLoop i_max_region i_dx i_dy fuel regions2 u.2

/-- `BuildRegions` (lines 546-672): filter out fragments with
non-positive width or height, compute the proximity increments (note
the source swaps them: `i_maxh = i_w_inc`, `i_maxw = i_h_inc`, and
`r_overlap` is called with `(i_maxw, i_maxh)` as `(i_dx, i_dy)`), then
run the greedy loop. -/
def BuildRegions (i_max_region : Int) (p_img_list : List ASS_Image)
    (i_width i_height : Int) : List rectangle_t :=
  let pos := p_img_list.filter fun p => decide (0 < p.w) && decide (0 < p.h)
  if pos.length = 0 then []
  else
    let i_maxh := i_w_inc i_width
    let i_maxw := i_h_inc i_height
    buildLoop i_max_region i_maxw i_maxh pos.length [] (pos.map some)

example : r_overlap ⟨0, 0, 10, 10⟩ ⟨20, 0, 30, 10⟩ 32 32 = true := by decide
example : r_overlap ⟨0, 0, 10, 10⟩ ⟨60, 0, 70, 10⟩ 32 32 = false := by decide
example :
    BuildRegions 4 [⟨0, 0, 10, 10, 0, [], 0⟩, ⟨200, 200, 10, 10, 0, [], 0⟩] 1000 1000 =
      [⟨0, 0, 10, 10⟩, ⟨200, 200, 210, 210⟩] := by decide
example :
    BuildRegions 4 [⟨0, 0, 10, 10, 0, [], 0⟩, ⟨20, 0, 10, 10, 0, [], 0⟩] 1000 1000 =
      [⟨0, 0, 30, 10⟩] := by decide

/-- One RGBA pixel of the destination buffer (bytes `dst[0..3]`). -/
structure Pixel where
  r : Nat
  g : Nat
  b : Nat
  a : Nat
deriving Repr, DecidableEq

/-- Row-major pixel buffer (the plane of the region picture). -/
def Buffer := List (List Pixel)

instance : DecidableEq Buffer := by
  unfold Buffer
  infer_instance

def zeroPixel : Pixel := ⟨0, 0, 0, 0⟩

/-- The `memset` to zero of the region plane. -/
def zeroBuffer (width height : Nat) : Buffer :=
  List.replicate height (List.replicate width zeroPixel)

def getPix (buf : Buffer) (y x : Nat) : Pixel := (buf.getD y []).getD x zeroPixel

def setPix (buf : Buffer) (y x : Nat) (p : Pixel) : Buffer :=
  buf.set y ((buf.getD y []).set x p)

/-- The per-sample blend of `RegionDraw` (lines 715-735), reached when
`opacity != 0`: compute `i_an`; direct write when the destination
alpha is 0; otherwise write the new alpha and, when it is nonzero,
the three blended channels.  All quantities are bytes in the C code;
the range hypotheses appear in the theorems. -/
def blend (r g b a opacity : Nat) (dst : Pixel) : Pixel :=
  let i_an := a * opacity / 255
  let i_ao := dst.a
  if i_ao = 0 then ⟨r, g, b, i_an⟩
  else
    let i_ani := 255 - i_an
    let newA := 255 - (255 - i_ao) * i_ani / 255
    if newA = 0 then ⟨dst.r, dst.g, dst.b, newA⟩
    else
      let i_aoni := i_ao * i_ani / 255
      ⟨(dst.r * i_aoni + r * i_an) / newA,
       (dst.g * i_aoni + g * i_an) / newA,
       (dst.b * i_aoni + b * i_an) / newA,
       newA⟩

/-- Drawing one fragment of the `for p_img` loop of `RegionDraw`
(lines 683-741): skip the fragment when it does not lie entirely
inside the buffer; decode the inverted alpha and skip when it is 0;
otherwise blend every sample with nonzero opacity, row by row with
the source stride. -/
def drawFragment (i_x i_y i_width i_height : Int) (buf : Buffer) (img : ASS_Image) : Buffer :=
  let i_dst_x := img.dst_x - i_x
  let i_dst_y := img.dst_y - i_y
  if i_dst_x < 0 || i_dst_x + img.w > i_width || i_dst_y < 0 || i_dst_y + img.h > i_height then
    buf
  else
    let a := 255 - img.color % 256
    if a = 0 then buf
    else
      let r := img.color / 2 ^ 24 % 256
      let g := img.color / 2 ^ 16 % 256
      let b := img.color / 2 ^ 8 % 256
      (List.range img.h.toNat).foldl
        (fun bufY y =>
          (List.range img.w.toNat).foldl
            (fun bufX x =>
              let opacity := img.bitmap.getD (y * img.stride + x) 0
              if opacity ≠ 0 then
                setPix bufX (i_dst_y.toNat + y) (i_dst_x.toNat + x)
                  (blend r g b a opacity (getPix bufX (i_dst_y.toNat + y) (i_dst_x.toNat + x)))
              else bufX)
            bufY)
        buf

/-- `RegionDraw` (lines 674-753) for the region rectangle `rect`: a
zeroed buffer of the region size, then every fragment drawn in list
order. -/
def RegionDraw (rect : rectangle_t) (imgs : List ASS_Image) : Buffer :=
  imgs.foldl (drawFragment rect.x0 rect.y0 (rect.x1 - rect.x0) (rect.y1 - rect.y0))
    (zeroBuffer (rect.x1 - rect.x0).toNat (rect.y1 - rect.y0).toNat)

/-- The source-format fields compared by `SubpictureUpdate`. -/
structure video_format_t where
  i_visible_width : Nat
  i_visible_height : Nat
deriving Repr, DecidableEq

/-- Modelled from the spec: `video_format_IsSimilar` is VLC core code
outside this source tree; the spec only requires that the destination
geometry is "unchanged since the previous sample", so similarity is
modelled as equality of the compared format fields. -/
def video_format_IsSimilar (a b : video_format_t) : Bool := a == b

/-- One produced output region: absolute position plus pixel buffer. -/
structure OutRegion where
  i_x : Int
  i_y : Int
  buf : Buffer

instance : DecidableEq OutRegion := by
  have : DecidableEq Buffer := inferInstance
  intro a b
  cases a
  cases b
  simp only [OutRegion.mk.injEq]
  infer_instance

/-- The region-producing effect of `SubpictureUpdate` (lines 414-511):
`b_fmt_src` and `b_fmt_dst` compare the previous and current formats;
when the renderer reports no change, both formats are unchanged and
fragment presence matches region presence, the function returns before
touching the previous region list; otherwise the list is cleared and
rebuilt from `BuildRegions` (with `i_max_region = 4`) and `RegionDraw`.
`p_img = none` models a NULL fragment list from the renderer. -/
def SubpictureUpdate (i_changed : Bool) (prev_src cur_src : video_format_t)
    (prev_dst cur_dst : video_format_t) (p_img : Option (List ASS_Image))
    (i_width i_height : Int) (prevRegions : List OutRegion) : List OutRegion :=
  let b_fmt_src :=
    decide (cur_src.i_visible_width ≠ prev_src.i_visible_width) ||
    decide (cur_src.i_visible_height ≠ prev_src.i_visible_height)
  let b_fmt_dst := !video_format_IsSimilar prev_dst cur_dst
  if !i_changed && !b_fmt_src && !b_fmt_dst && (p_img.isSome == !prevRegions.isEmpty) then
    prevRegions
  else
    let imgs := p_img.getD []
    let rects := BuildRegions 4 imgs i_width i_height
    rects.map fun rc => ⟨rc.x0, rc.y0, RegionDraw rc imgs⟩

example :
    RegionDraw ⟨0, 0, 2, 1⟩ [⟨0, 0, 2, 1, 2, [255, 128], 200 * 2 ^ 24 + 100 * 2 ^ 16 + 50 * 2 ^ 8⟩] =
      [[⟨200, 100, 50, 255⟩, ⟨200, 100, 50, 128⟩]] := by decide

/-! Spec-side definitions.  The following definitions are written from
the words of the specification (and of the claims derived from it),
to be compared with the source-derived definitions above. -/

/-- Spec-words selection rule of claim C1: among the regions the
fragment rectangle `r` is mergeable with, the one whose own rectangle
has the smallest surface area, ties broken by lowest region index. -/
def claimSelectAux (r : rectangle_t) (i_dx i_dy : Int) :
    List rectangle_t → Nat → Option (Nat × Int) → Option (Nat × Int)
  | [], _, best => best
  | rk :: rest, k, best =>
    if r_overlap rk r i_dx i_dy then
      match best with
      | none => claimSelectAux r i_dx i_dy rest (k + 1) (some (k, r_surface rk))
      | some kb =>
        if r_surface rk < kb.2 then
          claimSelectAux r i_dx i_dy rest (k + 1) (some (k, r_surface rk))
        else
          claimSelectAux r i_dx i_dy rest (k + 1) (some kb)
    else claimSelectAux r i_dx i_dy rest (k + 1) best

/-- Spec-words selection rule of claim C1, entry point. -/
def claimSelect (regions : List rectangle_t) (r : rectangle_t) (i_dx i_dy : Int) : Option Nat :=
  (claimSelectAux r i_dx i_dy regions 0 none).map fun kb => kb.1

/-- The partitioner as claim C1 describes it: identical to the source
loops except that each unassigned fragment is absorbed into the
mergeable region of smallest own surface area (`claimSelect`) instead
of the source's selection. -/
def scanPassClaim (i_dx i_dy : Int) :
    List rectangle_t → List (Option ASS_Image) →
    List rectangle_t × List (Option ASS_Image) × Bool
  | regions, [] => (regions, [], false)
  | regions, none :: rest =>
    let t := scanPassClaim i_dx i_dy regions rest
    (t.1, none :: t.2.1, t.2.2)
  | regions, some img :: rest =>
    let r := r_img img
    match claimSelect regions r i_dx i_dy with
    | some k =>
      let regions2 := regions.set k (r_add (regions.getD k default) r)
      let t := scanPassClaim i_dx i_dy regions2 rest
      (t.1, none :: t.2.1, true)
    | none =>
      let t := scanPassClaim i_dx i_dy regions rest
      (t.1, some img :: t.2.1, t.2.2)

/-- Absorption loop of the claim-C1 variant of the partitioner. -/
def absorbLoopClaim (i_dx i_dy : Int) :
    Nat → List rectangle_t → List (Option ASS_Image) →
    List rectangle_t × List (Option ASS_Image)
  | 0, regions, imgs => (regions, imgs)
  | fuel + 1, regions, imgs =>
    let t := scanPassClaim i_dx i_dy regions imgs
    if t.2.2 then absorbLoopClaim i_dx i_dy fuel t.1 t.2.1 else (t.1, t.2.1)

/-- Outer loop of the claim-C1 variant of the partitioner. -/
def buildLoopClaim (i_max_region i_dx i_dy : Int) :
    Nat → List rectangle_t → List (Option ASS_Image) → List rectangle_t
  | 0, regions, _ => regions
  | fuel + 1, regions, imgs =>
    match firstSome imgs with
    | none => regions
    | some t =>
      let regions1 := regions ++ [r_img t.2]
      let imgs1 := imgs.set t.1 none
      let u := absorbLoopClaim i_dx i_dy (someCount imgs1 + 1) regions1 imgs1
      let regions2 := if i_max_region < (u.1.length : Int) then collapseOnce u.1 else u.1
      buildLoopClaim i_max_region i_dx i_dy fuel regions2 u.2

/-- The partitioner exactly as claim C1 states it: the source
algorithm with the absorption target chosen by smallest region
surface area. -/
def BuildRegionsClaim (i_max_region : Int) (p_img_list : List ASS_Image)
    (i_width i_height : Int) : List rectangle_t :=
  let pos := p_img_list.filter fun p => decide (0 < p.w) && decide (0 < p.h)
  if pos.length = 0 then []
  else
    let i_maxh := i_w_inc i_width
    let i_maxw := i_h_inc i_height
    buildLoopClaim i_max_region i_maxw i_maxh pos.length [] (pos.map some)

/-- Spec-words mergeability predicate of claim C2: both rectangles
expanded outward by `dx = max(ceil(W/50), 32)` on x and
`dy = max(ceil(H/100), 32)` on y, then strict overlap on both axes. -/
def claimMergeable (i_width i_height : Int) (a b : rectangle_t) : Prop :=
  max (a.x0 - max ((i_width + 49) / 50) 32) (b.x0 - max ((i_width + 49) / 50) 32) <
      min (a.x1 + max ((i_width + 49) / 50) 32) (b.x1 + max ((i_width + 49) / 50) 32) ∧
  max (a.y0 - max ((i_height + 99) / 100) 32) (b.y0 - max ((i_height + 99) / 100) 32) <
      min (a.y1 + max ((i_height + 99) / 100) 32) (b.y1 + max ((i_height + 99) / 100) 32)

instance (W H : Int) (a b : rectangle_t) : Decidable (claimMergeable W H a b) := by
  unfold claimMergeable
  infer_instance

/-- The mergeability test the source actually applies, written as the
amended claim C2 words: the candidate region rectangle `a` alone is
expanded outward by `max(ceil(H/100), 32)` on the x axis and by
`max(ceil(W/50), 32)` on the y axis (the width- and height-derived
increments land on the opposite axes), then strict overlap with the
unexpanded fragment rectangle `b` is required on both axes. -/
def amendedMergeable (i_width i_height : Int) (a b : rectangle_t) : Prop :=
  max (a.x0 - max ((i_height + 99) / 100) 32) b.x0 <
      min (a.x1 + max ((i_height + 99) / 100) 32) b.x1 ∧
  max (a.y0 - max ((i_width + 49) / 50) 32) b.y0 <
      min (a.y1 + max ((i_width + 49) / 50) 32) b.y1

/-- Lowest-index mergeable region, the amended claim C1 selection. -/
def lowestMergeable : List rectangle_t → rectangle_t → Int → Int → Option Nat
  | [], _, _, _ => none
  | a :: rest, r, i_dx, i_dy =>
    if r_overlap a r i_dx i_dy then some 0
    else (lowestMergeable rest r i_dx i_dy).map fun k => k + 1

/-! Helper lemmas about the candidate selection. -/

lemma findBestAux_frozen (r : rectangle_t) (i_dx i_dy : Int) :
    ∀ (l : List rectangle_t) (k : Nat) (best : Option Nat),
      findBestAux r i_dx i_dy l k (r_surface r) best = best := by
  intro l
  induction l with
  | nil => intro k best; rfl
  | cons a rest ih =>
    intro k best
    simp only [findBestAux, lt_irrefl, decide_False, Bool.and_false, Bool.false_eq_true,
      if_false]
    exact ih (k + 1) best

lemma findBestAux_fresh (r : rectangle_t) (i_dx i_dy : Int) {s : Int}
    (hs : r_surface r < s) :
    ∀ (l : List rectangle_t) (k : Nat),
      findBestAux r i_dx i_dy l k s none =
        (lowestMergeable l r i_dx i_dy).map fun j => j + k := by
  intro l
  induction l with
  | nil => intro k; rfl
  | cons a rest ih =>
    intro k
    by_cases hov : r_overlap a r i_dx i_dy
    · simp only [findBestAux, lowestMergeable, hov, decide_eq_true_eq, hs, decide_True,
        Bool.and_self, if_true, Option.map_some]
      rw [findBestAux_frozen]
      simp
    · simp only [findBestAux, lowestMergeable, hov, Bool.false_and, Bool.false_eq_true,
        if_false, if_neg hov]
      rw [ih (k + 1)]
      cases lowestMergeable rest r i_dx i_dy with
      | none => rfl
      | some j =>
        simp
        omega

/-- The selection the source performs, rewritten: because the surface
compared is the fragment rectangle's own (constant across candidates),
the first mergeable region always wins. -/
lemma findBest_eq_lowestMergeable (regions : List rectangle_t) (r : rectangle_t)
    (i_dx i_dy : Int) (h : r_surface r < C_INT_MAX) :
    findBest regions r i_dx i_dy = lowestMergeable regions r i_dx i_dy := by
  unfold findBest
  rw [findBestAux_fresh r i_dx i_dy h regions 0]
  cases lowestMergeable regions r i_dx i_dy with
  | none => rfl
  | some j => simp

lemma lowestMergeable_isSome (l : List rectangle_t) (r : rectangle_t) (i_dx i_dy : Int) :
    (lowestMergeable l r i_dx i_dy).isSome = true ↔
      ∃ a ∈ l, r_overlap a r i_dx i_dy = true := by
  induction l with
  | nil => simp [lowestMergeable]
  | cons a rest ih =>
    by_cases hov : r_overlap a r i_dx i_dy
    · simp [lowestMergeable, hov]
    · simp only [lowestMergeable, if_neg hov, List.mem_cons]
      constructor
      · intro hsome
        rcases ih.mp (by cases h : lowestMergeable rest r i_dx i_dy <;>
          simp [h] at hsome ⊢) with ⟨b, hb, hbov⟩
        exact ⟨b, Or.inr hb, hbov⟩
      · rintro ⟨b, hb | hb, hbov⟩
        · exact absurd (hb ▸ hbov) (by simpa using hov)
        · have := ih.mpr ⟨b, hb, hbov⟩
          cases h : lowestMergeable rest r i_dx i_dy <;> simp [h] at this ⊢

lemma r_overlap_iff_amended (i_width i_height : Int) (a b : rectangle_t) :
    r_overlap a b (i_h_inc i_height) (i_w_inc i_width) = true ↔
      amendedMergeable i_width i_height a b := by
  simp [r_overlap, amendedMergeable, i_h_inc, i_w_inc, Bool.and_eq_true,
    decide_eq_true_eq]

/-- Concrete fragment list on a 100x100 canvas exhibiting the C1
divergence (all fragments positive-size; bitmaps are irrelevant to the
partitioner). -/
def fragsC1 : List ASS_Image :=
  [⟨190, 460, 110, 50, 0, [], 0⟩, ⟨180, 110, 30, 20, 0, [], 0⟩,
   ⟨530, 190, 50, 60, 0, [], 0⟩, ⟨400, 400, 70, 30, 0, [], 0⟩,
   ⟨100, 370, 80, 50, 0, [], 0⟩, ⟨190, 320, 20, 90, 0, [], 0⟩]

/-- The region state reached by `BuildRegions 3 fragsC1 100 100` right
before the last fragment's rectangle `(190,320)-(210,410)` is
scanned. -/
def divergeRegions : List rectangle_t :=
  [⟨190, 400, 470, 510⟩, ⟨180, 110, 210, 130⟩, ⟨530, 190, 580, 250⟩, ⟨100, 370, 180, 420⟩]

/-- C1 is false on the code: the source selection (`findBest`) compares
`r_surface(&r)`, the surface of the fragment rectangle itself, not the
candidate region's, so the comparison never improves after the first
mergeable region and the lowest-index mergeable region wins regardless
of area.  At the reachable state `divergeRegions` the fragment
rectangle `(190,320)-(210,410)` is mergeable with regions 0 and 3,
region 3 has the smaller surface, yet the code absorbs into region 0;
and on the full input `fragsC1` the code's output differs from the
output of the partitioner as the claim describes it. -/
theorem C1_counterexample :
    findBest divergeRegions ⟨190, 320, 210, 410⟩ 32 32 = some 0 ∧
    claimSelect divergeRegions ⟨190, 320, 210, 410⟩ 32 32 = some 3 ∧
    r_overlap (divergeRegions.getD 0 default) ⟨190, 320, 210, 410⟩ 32 32 = true ∧
    r_overlap (divergeRegions.getD 3 default) ⟨190, 320, 210, 410⟩ 32 32 = true ∧
    r_surface (divergeRegions.getD 3 default) < r_surface (divergeRegions.getD 0 default) ∧
    BuildRegions 3 fragsC1 100 100 ≠ BuildRegionsClaim 3 fragsC1 100 100 := by
  refine ⟨by decide, by decide, by decide, by decide, by decide, by decide⟩

/-- C1 amended: the partitioner absorbs each mergeable unassigned
fragment into the mergeable region with the lowest index (the surface
the code compares is the fragment's own, identical for every
candidate), and grows that region by `r_add`; the absorbed fragment's
surface must also be below `INT_MAX` for the sentinel comparison to
fire at all. -/
theorem C1_amended (regions : List rectangle_t) (r : rectangle_t) (i_dx i_dy : Int)
    (h : r_surface r < C_INT_MAX) :
    findBest regions r i_dx i_dy = lowestMergeable regions r i_dx i_dy :=
  findBest_eq_lowestMergeable regions r i_dx i_dy h

theorem C1_amended_witness :
    r_surface (⟨190, 320, 210, 410⟩ : rectangle_t) < C_INT_MAX ∧
      findBest divergeRegions ⟨190, 320, 210, 410⟩ 32 32 =
        lowestMergeable divergeRegions ⟨190, 320, 210, 410⟩ 32 32 :=
  ⟨by decide, C1_amended divergeRegions ⟨190, 320, 210, 410⟩ 32 32 (by decide)⟩

/-- C2 is false on the code: the source assigns `i_maxh = i_w_inc` and
`i_maxw = i_h_inc` and calls `r_overlap(region, r, i_maxw, i_maxh)`,
so the width-derived increment acts on the y axis and the
height-derived one on the x axis, and only one rectangle is expanded.
On a 5000x100 canvas the claim's predicate (x tolerance from the
width) declares the rectangles `(0,0)-(10,10)` and `(60,0)-(70,10)`
mergeable, but the code's test rejects them and `BuildRegions` keeps
them as two separate regions. -/
theorem C2_counterexample :
    claimMergeable 5000 100 ⟨0, 0, 10, 10⟩ ⟨60, 0, 70, 10⟩ ∧
    r_overlap ⟨0, 0, 10, 10⟩ ⟨60, 0, 70, 10⟩ (i_h_inc 100) (i_w_inc 5000) = false ∧
    BuildRegions 4 [⟨0, 0, 10, 10, 0, [], 0⟩, ⟨60, 0, 10, 10, 0, [], 0⟩] 5000 100 =
      [⟨0, 0, 10, 10⟩, ⟨60, 0, 70, 10⟩] := by
  refine ⟨by decide, by decide, by decide⟩

/-- C2 amended: for canvas width W and height H the partitioner's
candidate scan succeeds exactly when some existing region, expanded
outward by `max(ceil(H/100), 32)` on the x axis and by
`max(ceil(W/50), 32)` on the y axis (the two increments act on the
opposite axes, and only the region rectangle is expanded), strictly
overlaps the fragment rectangle on both axes. -/
theorem C2_amended (i_width i_height : Int) (regions : List rectangle_t)
    (r : rectangle_t) (h : r_surface r < C_INT_MAX) :
    (findBest regions r (i_h_inc i_height) (i_w_inc i_width)).isSome = true ↔
      ∃ a ∈ regions, amendedMergeable i_width i_height a r := by
  rw [findBest_eq_lowestMergeable regions r _ _ h, lowestMergeable_isSome]
  constructor
  · rintro ⟨a, ha, hov⟩
    exact ⟨a, ha, (r_overlap_iff_amended i_width i_height a r).mp hov⟩
  · rintro ⟨a, ha, hm⟩
    exact ⟨a, ha, (r_overlap_iff_amended i_width i_height a r).mpr hm⟩

theorem C2_amended_witness :
    r_surface (⟨60, 0, 70, 10⟩ : rectangle_t) < C_INT_MAX ∧
      ((findBest [⟨0, 0, 10, 10⟩] ⟨60, 0, 70, 10⟩ (i_h_inc 1000) (i_w_inc 1000)).isSome = true ↔
        ∃ a ∈ [(⟨0, 0, 10, 10⟩ : rectangle_t)], amendedMergeable 1000 1000 a ⟨60, 0, 70, 10⟩) :=
  ⟨by decide, C2_amended 1000 1000 [⟨0, 0, 10, 10⟩] ⟨60, 0, 70, 10⟩ (by decide)⟩

/-! Helper lemmas about the rasterizer. -/

lemma drawFragment_oob (i_x i_y i_w i_h : Int) (buf : Buffer) (img : ASS_Image)
    (h : img.dst_x - i_x < 0 ∨ img.dst_x - i_x + img.w > i_w ∨
         img.dst_y - i_y < 0 ∨ img.dst_y - i_y + img.h > i_h) :
    drawFragment i_x i_y i_w i_h buf img = buf := by
  have hcond : (decide (img.dst_x - i_x < 0) || decide (img.dst_x - i_x + img.w > i_w) ||
      decide (img.dst_y - i_y < 0) || decide (img.dst_y - i_y + img.h > i_h)) = true := by
    rcases h with h | h | h | h <;> simp [h]
  unfold drawFragment
  simp only [hcond, if_true]

lemma drawFragment_zero_alpha (i_x i_y i_w i_h : Int) (buf : Buffer) (img : ASS_Image)
    (h : img.color % 256 = 255) :
    drawFragment i_x i_y i_w i_h buf img = buf := by
  unfold drawFragment
  by_cases hoob : (decide (img.dst_x - i_x < 0) || decide (img.dst_x - i_x + img.w > i_w) ||
      decide (img.dst_y - i_y < 0) || decide (img.dst_y - i_y + img.h > i_h)) = true
  · simp only [hoob, if_true]
  · simp [hoob, h]

lemma div_add_div_le (a b c : Nat) (hc : 0 < c) : a / c + b / c ≤ (a + b) / c := by
  rw [Nat.le_div_iff_mul_le hc, Nat.add_mul]
  exact Nat.add_le_add (Nat.div_mul_le_self a c) (Nat.div_mul_le_self b c)

lemma mul_byte_div_le (x y : Nat) (hy : y ≤ 255) : x * y / 255 ≤ x := by
  calc x * y / 255 ≤ x * 255 / 255 := Nat.div_le_div_right (Nat.mul_le_mul_left x hy)
  _ = x := by omega

/-- C7: a fragment whose rectangle does not lie entirely inside the
region pixel buffer (negative offset on either axis relative to the
region origin, or extent exceeding the buffer width or height) is
skipped entirely by `RegionDraw`: the resulting buffer is the one the
remaining fragments alone produce, and no pixel is written for it. -/
theorem C7_oob_fragment_skipped (rect : rectangle_t) (pre post : List ASS_Image)
    (img : ASS_Image)
    (h : img.dst_x - rect.x0 < 0 ∨ img.dst_x - rect.x0 + img.w > rect.x1 - rect.x0 ∨
         img.dst_y - rect.y0 < 0 ∨ img.dst_y - rect.y0 + img.h > rect.y1 - rect.y0) :
    RegionDraw rect (pre ++ img :: post) = RegionDraw rect (pre ++ post) := by
  unfold RegionDraw
  rw [List.foldl_append, List.foldl_append, List.foldl_cons,
    drawFragment_oob _ _ _ _ _ _ h]

theorem C7_witness :
    ((3 : Int) - 0 < 0 ∨ (3 : Int) - 0 + 2 > 4 - 0 ∨ (0 : Int) - 0 < 0 ∨ (0 : Int) - 0 + 1 > 1 - 0) ∧
      RegionDraw ⟨0, 0, 4, 1⟩ ([] ++ ⟨3, 0, 2, 1, 2, [255, 255], 255 * 2 ^ 24⟩ :: []) =
        RegionDraw ⟨0, 0, 4, 1⟩ ([] ++ []) :=
  ⟨by decide,
    C7_oob_fragment_skipped ⟨0, 0, 4, 1⟩ [] [] ⟨3, 0, 2, 1, 2, [255, 255], 255 * 2 ^ 24⟩
      (by decide)⟩

/-- C9: a fragment whose packed color has inverted-alpha byte 0xFF
decodes to alpha 0 and is skipped whole: `RegionDraw` with it produces
exactly the buffer the remaining fragments alone produce. -/
theorem C9_zero_alpha_noop (rect : rectangle_t) (pre post : List ASS_Image)
    (img : ASS_Image) (h : img.color % 256 = 255) :
    RegionDraw rect (pre ++ img :: post) = RegionDraw rect (pre ++ post) := by
  unfold RegionDraw
  rw [List.foldl_append, List.foldl_append, List.foldl_cons,
    drawFragment_zero_alpha _ _ _ _ _ _ h]

theorem C9_witness :
    (200 * 2 ^ 24 + 100 * 2 ^ 16 + 50 * 2 ^ 8 + 255) % 256 = 255 ∧
      RegionDraw ⟨0, 0, 2, 1⟩
          ([] ++ ⟨0, 0, 2, 1, 2, [255, 128], 200 * 2 ^ 24 + 100 * 2 ^ 16 + 50 * 2 ^ 8 + 255⟩ :: []) =
        RegionDraw ⟨0, 0, 2, 1⟩ ([] ++ []) :=
  ⟨by decide,
    C9_zero_alpha_noop ⟨0, 0, 2, 1⟩ [] []
      ⟨0, 0, 2, 1, 2, [255, 128], 200 * 2 ^ 24 + 100 * 2 ^ 16 + 50 * 2 ^ 8 + 255⟩ (by decide)⟩

/-- The Scenario A fragment: w=2, h=1, opacity row [255, 128], color
bytes r=200 g=100 b=50, inverted alpha byte 0. -/
def scenAFragment : ASS_Image := ⟨0, 0, 2, 1, 2, [255, 128], 200 * 2 ^ 24 + 100 * 2 ^ 16 + 50 * 2 ^ 8⟩

/-- C8: when the destination alpha is 0 the blend is a direct write of
`(r, g, b, an)` with `an = alpha*opacity/255`; and on a pre-zeroed
buffer the Scenario A fragment produces pixel (0,0) = (200,100,50,255)
and pixel (1,0) = (200,100,50,128). -/
theorem C8_direct_write :
    (∀ (r g b a op : Nat) (dst : Pixel), dst.a = 0 →
        blend r g b a op dst = ⟨r, g, b, a * op / 255⟩) ∧
    getPix (RegionDraw ⟨0, 0, 2, 1⟩ [scenAFragment]) 0 0 = ⟨200, 100, 50, 255⟩ ∧
    getPix (RegionDraw ⟨0, 0, 2, 1⟩ [scenAFragment]) 0 1 = ⟨200, 100, 50, 128⟩ := by
  refine ⟨?_, by decide, by decide⟩
  intro r g b a op dst h
  simp [blend, h]

theorem C8_witness : blend 7 8 9 10 20 ⟨0, 0, 0, 0⟩ = ⟨7, 8, 9, 10 * 20 / 255⟩ :=
  C8_direct_write.1 7 8 9 10 20 ⟨0, 0, 0, 0⟩ rfl

lemma aoni_add_an_le_newA (ao an : Nat) (hao : ao ≤ 255) (han : an ≤ 255) :
    ao * (255 - an) / 255 + an ≤ 255 - (255 - ao) * (255 - an) / 255 := by
  have hsplit : ao * (255 - an) / 255 + (255 - ao) * (255 - an) / 255 ≤ 255 - an := by
    have hsum : ao * (255 - an) + (255 - ao) * (255 - an) = 255 * (255 - an) := by
      rw [← Nat.add_mul]
      congr 1
      omega
    calc ao * (255 - an) / 255 + (255 - ao) * (255 - an) / 255
        ≤ (ao * (255 - an) + (255 - ao) * (255 - an)) / 255 :=
          div_add_div_le _ _ 255 (by norm_num)
      _ = 255 * (255 - an) / 255 := by rw [hsum]
      _ = 255 - an := by omega
  have hv : (255 - ao) * (255 - an) / 255 ≤ 255 - an :=
    le_trans (Nat.le_add_left _ _) hsplit
  omega

lemma channel_le (c src aoni an newA : Nat) (hc : c ≤ 255) (hs : src ≤ 255)
    (hkey : aoni + an ≤ newA) (hpos : 0 < newA) :
    (c * aoni + src * an) / newA ≤ 255 := by
  have hm : c * aoni + src * an ≤ 255 * newA := by
    calc c * aoni + src * an ≤ 255 * aoni + 255 * an :=
          Nat.add_le_add (Nat.mul_le_mul_right _ hc) (Nat.mul_le_mul_right _ hs)
      _ = 255 * (aoni + an) := by ring
      _ ≤ 255 * newA := Nat.mul_le_mul_left 255 hkey
  calc (c * aoni + src * an) / newA ≤ 255 * newA / newA := Nat.div_le_div_right hm
    _ = 255 * (newA / newA) := Nat.mul_div_assoc 255 (dvd_refl newA)
    _ = 255 := by rw [Nat.div_self hpos, Nat.mul_one]

/-- C5: with all source and destination bytes in 0..255, every
intermediate of the blend step (`i_an`, the new alpha, `i_aoni`) and
every byte `blend` produces lie in 0..255, so each byte store of
`RegionDraw` is exact and needs no clamping. -/
theorem C5_blend_in_range (r g b a op : Nat) (dst : Pixel)
    (hr : r ≤ 255) (hg : g ≤ 255) (hb : b ≤ 255) (ha : a ≤ 255) (hop : op ≤ 255)
    (hdr : dst.r ≤ 255) (hdg : dst.g ≤ 255) (hdb : dst.b ≤ 255) (hda : dst.a ≤ 255) :
    a * op / 255 ≤ 255 ∧
    255 - (255 - dst.a) * (255 - a * op / 255) / 255 ≤ 255 ∧
    dst.a * (255 - a * op / 255) / 255 ≤ 255 ∧
    (blend r g b a op dst).r ≤ 255 ∧ (blend r g b a op dst).g ≤ 255 ∧
    (blend r g b a op dst).b ≤ 255 ∧ (blend r g b a op dst).a ≤ 255 := by
  have han : a * op / 255 ≤ 255 := by
    calc a * op / 255 ≤ a * 255 / 255 := Nat.div_le_div_right (Nat.mul_le_mul_left a hop)
    _ = a := by omega
    _ ≤ 255 := ha
  have haoni : dst.a * (255 - a * op / 255) / 255 ≤ 255 :=
    le_trans (mul_byte_div_le dst.a _ (by omega)) hda
  refine ⟨han, by omega, haoni, ?_⟩
  have hkey := aoni_add_an_le_newA dst.a (a * op / 255) hda han
  unfold blend
  by_cases hao : dst.a = 0
  · simp only [hao, if_true, if_pos rfl]
    exact ⟨hr, hg, hb, han⟩
  · simp only [if_neg hao]
    by_cases hnewA : 255 - (255 - dst.a) * (255 - a * op / 255) / 255 = 0
    · simp [hnewA]
      exact ⟨hdr, hdg, hdb⟩
    · simp only [if_neg hnewA]
      have hpos : 0 < 255 - (255 - dst.a) * (255 - a * op / 255) / 255 :=
        Nat.pos_of_ne_zero hnewA
      exact ⟨channel_le dst.r r _ _ _ hdr hr hkey hpos,
        channel_le dst.g g _ _ _ hdg hg hkey hpos,
        channel_le dst.b b _ _ _ hdb hb hkey hpos, by omega⟩

theorem C5_witness :
    (200 : Nat) ≤ 255 ∧ (100 : Nat) ≤ 255 ∧ (50 : Nat) ≤ 255 ∧ (255 : Nat) ≤ 255 ∧
    (128 : Nat) ≤ 255 ∧
    (blend 200 100 50 255 128 ⟨10, 20, 30, 40⟩).r ≤ 255 ∧
    (blend 200 100 50 255 128 ⟨10, 20, 30, 40⟩).a ≤ 255 :=
  ⟨by decide, by decide, by decide, by decide, by decide,
    (C5_blend_in_range 200 100 50 255 128 ⟨10, 20, 30, 40⟩ (by decide) (by decide)
      (by decide) (by decide) (by decide) (by decide) (by decide) (by decide)
      (by decide)).2.2.2.1,
    (C5_blend_in_range 200 100 50 255 128 ⟨10, 20, 30, 40⟩ (by decide) (by decide)
      (by decide) (by decide) (by decide) (by decide) (by decide) (by decide)
      (by decide)).2.2.2.2.2.2⟩

lemma newA_ge_ao (ao an : Nat) (hao : ao ≤ 255) (han : an ≤ 255) :
    ao ≤ 255 - (255 - ao) * (255 - an) / 255 := by
  have h1 : (255 - ao) * (255 - an) / 255 ≤ 255 - ao :=
    mul_byte_div_le (255 - ao) (255 - an) (by omega)
  omega

/-- C10: a destination pixel's alpha never decreases across blend
steps; in particular when the destination alpha is nonzero the new
alpha `255 - (255 - dst.a) * (255 - an) / 255` is at least `dst.a` for
every `an` in 0..255, so the `new_a == 0` branch is unreachable for a
pixel whose alpha is already nonzero. -/
theorem C10_alpha_monotone (r g b a op : Nat) (dst : Pixel)
    (ha : a ≤ 255) (hop : op ≤ 255) (hda : dst.a ≤ 255) :
    dst.a ≤ (blend r g b a op dst).a ∧
    (dst.a ≠ 0 → (blend r g b a op dst).a ≠ 0) ∧
    (∀ an : Nat, an ≤ 255 → dst.a ≤ 255 - (255 - dst.a) * (255 - an) / 255) := by
  have han : a * op / 255 ≤ 255 := by
    calc a * op / 255 ≤ a * 255 / 255 := Nat.div_le_div_right (Nat.mul_le_mul_left a hop)
    _ = a := by omega
    _ ≤ 255 := ha
  refine ⟨?_, ?_, fun an han2 => newA_ge_ao dst.a an hda han2⟩ <;>
    · unfold blend
      by_cases hao : dst.a = 0
      · simp [hao]
      · have hge := newA_ge_ao dst.a (a * op / 255) hda han
        have hnz : 255 - (255 - dst.a) * (255 - a * op / 255) / 255 ≠ 0 := by
          have : 0 < dst.a := Nat.pos_of_ne_zero hao
          omega
        simp only [if_neg hao, if_neg hnz]
        first
        | exact hge
        | exact fun _ => hnz

theorem C10_witness :
    (40 : Nat) ≤ 255 ∧
      ((40 : Nat) ≤ (blend 200 100 50 255 128 ⟨10, 20, 30, 40⟩).a ∧
        ((40 : Nat) ≠ 0 → (blend 200 100 50 255 128 ⟨10, 20, 30, 40⟩).a ≠ 0)) :=
  ⟨by decide,
    (C10_alpha_monotone 200 100 50 255 128 ⟨10, 20, 30, 40⟩ (by decide) (by decide)
        (by decide)).1,
    (C10_alpha_monotone 200 100 50 255 128 ⟨10, 20, 30, 40⟩ (by decide) (by decide)
        (by decide)).2.1⟩

/-- C6: when the renderer reports no change, the source and
destination geometries both match the previous sample and the presence
of fragments equals the presence of previously produced regions, the
update pass returns before clearing or rebuilding: the previous region
list is returned unmodified. -/
theorem C6_unchanged_skip (i_changed : Bool) (prev_src cur_src prev_dst cur_dst : video_format_t)
    (p_img : Option (List ASS_Image)) (i_width i_height : Int)
    (prevRegions : List OutRegion)
    (h1 : i_changed = false)
    (h2 : cur_src.i_visible_width = prev_src.i_visible_width)
    (h3 : cur_src.i_visible_height = prev_src.i_visible_height)
    (h4 : video_format_IsSimilar prev_dst cur_dst = true)
    (h5 : p_img.isSome = !prevRegions.isEmpty) :
    SubpictureUpdate i_changed prev_src cur_src prev_dst cur_dst p_img i_width i_height
        prevRegions = prevRegions := by
  unfold SubpictureUpdate
  simp [h1, h2, h3, h4, h5]

theorem C6_witness :
    SubpictureUpdate false ⟨640, 480⟩ ⟨640, 480⟩ ⟨1920, 1080⟩ ⟨1920, 1080⟩
        (some [⟨0, 0, 2, 1, 2, [255, 128], 0⟩]) 1920 1080
        [⟨0, 0, [[⟨1, 2, 3, 4⟩]]⟩] =
      [⟨0, 0, [[⟨1, 2, 3, 4⟩]]⟩] :=
  C6_unchanged_skip false ⟨640, 480⟩ ⟨640, 480⟩ ⟨1920, 1080⟩ ⟨1920, 1080⟩
    (some [⟨0, 0, 2, 1, 2, [255, 128], 0⟩]) 1920 1080 [⟨0, 0, [[⟨1, 2, 3, 4⟩]]⟩]
    rfl rfl rfl (by decide) (by decide)

/-! Infrastructure for the partitioner proofs: rectangle containment,
pointwise domination of region lists, and coordinate bounds. -/

/-- Rectangle `a` lies inside rectangle `b`. -/
def rsub (a b : rectangle_t) : Prop :=
  b.x0 ≤ a.x0 ∧ b.y0 ≤ a.y0 ∧ a.x1 ≤ b.x1 ∧ a.y1 ≤ b.y1

lemma rsub_refl (a : rectangle_t) : rsub a a :=
  ⟨le_refl _, le_refl _, le_refl _, le_refl _⟩

lemma rsub_trans {a b c : rectangle_t} (h1 : rsub a b) (h2 : rsub b c) : rsub a c :=
  ⟨le_trans h2.1 h1.1, le_trans h2.2.1 h1.2.1,
   le_trans h1.2.2.1 h2.2.2.1, le_trans h1.2.2.2 h2.2.2.2⟩

lemma rsub_add_left (a b : rectangle_t) : rsub a (r_add a b) :=
  ⟨min_le_left _ _, min_le_left _ _, le_max_left _ _, le_max_left _ _⟩

lemma rsub_add_right (a b : rectangle_t) : rsub b (r_add a b) :=
  ⟨min_le_right _ _, min_le_right _ _, le_max_right _ _, le_max_right _ _⟩

/-- Some rectangle of the list contains `s`. -/
def Covered (l : List rectangle_t) (s : rectangle_t) : Prop := ∃ r ∈ l, rsub s r

/-- Every rectangle of `l` is contained in some rectangle of `l2`. -/
def Dom (l l2 : List rectangle_t) : Prop := ∀ r ∈ l, ∃ r2 ∈ l2, rsub r r2

lemma Dom_refl (l : List rectangle_t) : Dom l l := fun r hr => ⟨r, hr, rsub_refl r⟩

lemma Dom_trans {l1 l2 l3 : List rectangle_t} (h1 : Dom l1 l2) (h2 : Dom l2 l3) :
    Dom l1 l3 := by
  intro r hr
  obtain ⟨r2, hr2, hs2⟩ := h1 r hr
  obtain ⟨r3, hr3, hs3⟩ := h2 r2 hr2
  exact ⟨r3, hr3, rsub_trans hs2 hs3⟩

lemma Covered_mono {l l2 : List rectangle_t} {s : rectangle_t}
    (h : Covered l s) (hd : Dom l l2) : Covered l2 s := by
  obtain ⟨r, hr, hs⟩ := h
  obtain ⟨r2, hr2, hs2⟩ := hd r hr
  exact ⟨r2, hr2, rsub_trans hs hs2⟩

lemma Dom_append (l l2 : List rectangle_t) : Dom l (l ++ l2) :=
  fun r hr => ⟨r, List.mem_append_left l2 hr, rsub_refl r⟩

lemma Dom_set (l : List rectangle_t) (k : Nat) (v : rectangle_t)
    (hk : k < l.length) (h : rsub (l.getD k default) v) : Dom l (l.set k v) := by
  intro r hr
  obtain ⟨m, hm, rfl⟩ := List.mem_iff_getElem.mp hr
  by_cases hmk : m = k
  · subst hmk
    have hm2 : m < (l.set m v).length := by simpa using hm
    refine ⟨v, ?_, ?_⟩
    · have hv : (l.set m v)[m] = v := List.getElem_set_self hm2
      have hmem : (l.set m v)[m] ∈ l.set m v := List.getElem_mem hm2
      rwa [hv] at hmem
    · rwa [List.getD_eq_getElem l default hm] at h
  · refine ⟨l[m], ?_, rsub_refl _⟩
    have hm2 : m < (l.set k v).length := by simpa using hm
    have hv : (l.set k v)[m] = l[m] :=
      List.getElem_set_ne (fun hkm => hmk hkm.symm) hm2
    have hmem : (l.set k v)[m] ∈ l.set k v := List.getElem_mem hm2
    rwa [hv] at hmem

/-- Rectangle with both corners inside the square `[0, 32768]^2` and
correctly ordered. -/
def InB (r : rectangle_t) : Prop :=
  0 ≤ r.x0 ∧ r.x0 ≤ r.x1 ∧ r.x1 ≤ 32768 ∧ 0 ≤ r.y0 ∧ r.y0 ≤ r.y1 ∧ r.y1 ≤ 32768

lemma InB_r_add {a b : rectangle_t} (ha : InB a) (hb : InB b) : InB (r_add a b) := by
  refine ⟨le_min ha.1 hb.1,
    le_trans (min_le_left _ _) (le_trans ha.2.1 (le_max_left _ _)),
    max_le ha.2.2.1 hb.2.2.1,
    le_min ha.2.2.2.1 hb.2.2.2.1,
    le_trans (min_le_left _ _) (le_trans ha.2.2.2.2.1 (le_max_left _ _)),
    max_le ha.2.2.2.2.2 hb.2.2.2.2.2⟩

lemma InB_surface {a : rectangle_t} (ha : InB a) :
    0 ≤ r_surface a ∧ r_surface a ≤ 1073741824 := by
  obtain ⟨ha1, ha2, ha3, ha4, ha5, ha6⟩ := ha
  unfold r_surface
  constructor
  · exact mul_nonneg (by omega) (by omega)
  · have h1 : a.x1 - a.x0 ≤ 32768 := by omega
    have h2 : a.y1 - a.y0 ≤ 32768 := by omega
    calc (a.x1 - a.x0) * (a.y1 - a.y0) ≤ 32768 * (a.y1 - a.y0) :=
          mul_le_mul_of_nonneg_right h1 (by omega)
      _ ≤ 32768 * 32768 := mul_le_mul_of_nonneg_left h2 (by norm_num)
      _ = 1073741824 := by norm_num

lemma findBestAux_some {r : rectangle_t} {i_dx i_dy : Int} :
    ∀ (l : List rectangle_t) (k0 : Nat) (s : Int) (best : Option Nat) (j : Nat),
      findBestAux r i_dx i_dy l k0 s best = some j →
      best = some j ∨ (k0 ≤ j ∧ j < k0 + l.length) := by
  intro l
  induction l with
  | nil => intro k0 s best j h; exact Or.inl h
  | cons a rest ih =>
    intro k0 s best j h
    simp only [findBestAux] at h
    by_cases hc : (r_overlap a r i_dx i_dy && decide (r_surface r < s)) = true
    · rw [if_pos hc] at h
      rcases ih (k0 + 1) (r_surface r) (some k0) j h with h2 | h2
      · right
        simp only [Option.some.injEq] at h2
        subst h2
        simp only [List.length_cons]
        omega
      · right
        simp only [List.length_cons]
        omega
    · rw [if_neg hc] at h
      rcases ih (k0 + 1) s best j h with h2 | h2
      · exact Or.inl h2
      · right
        simp only [List.length_cons]
        omega

lemma findBest_lt {regions : List rectangle_t} {r : rectangle_t} {i_dx i_dy : Int} {k : Nat}
    (h : findBest regions r i_dx i_dy = some k) : k < regions.length := by
  rcases findBestAux_some regions 0 C_INT_MAX none k h with h2 | h2
  · exact absurd h2 (by simp)
  · omega

lemma mem_set_self {α : Type} (l : List α) (k : Nat) (v : α) (hk : k < l.length) :
    v ∈ l.set k v := by
  have hk2 : k < (l.set k v).length := by simpa using hk
  have hv : (l.set k v)[k] = v := List.getElem_set_self hk2
  have hmem : (l.set k v)[k] ∈ l.set k v := List.getElem_mem hk2
  rwa [hv] at hmem

lemma getD_mem (l : List rectangle_t) (k : Nat) (hk : k < l.length) :
    l.getD k default ∈ l := by
  rw [List.getD_eq_getElem l default hk]
  exact List.getElem_mem _

lemma someCount_nil : someCount [] = 0 := rfl

lemma someCount_cons_none (l : List (Option ASS_Image)) :
    someCount (none :: l) = someCount l := by
  simp [someCount, List.countP_cons]

lemma someCount_cons_some (img : ASS_Image) (l : List (Option ASS_Image)) :
    someCount (some img :: l) = someCount l + 1 := by
  simp [someCount, List.countP_cons]

lemma scanPass_length (i_dx i_dy : Int) :
    ∀ (imgs : List (Option ASS_Image)) (regions : List rectangle_t),
      (scanPass i_dx i_dy regions imgs).1.length = regions.length := by
  intro imgs
  induction imgs with
  | nil => intro regions; rfl
  | cons o rest ih =>
    intro regions
    cases o with
    | none => simpa [scanPass] using ih regions
    | some img =>
      simp only [scanPass]
      cases hfb : findBest regions (r_img img) i_dx i_dy with
      | none => simpa [hfb] using ih regions
      | some k =>
        simp only [hfb]
        have := ih (regions.set k (r_add (regions.getD k default) (r_img img)))
        simpa [List.length_set] using this

lemma scanPass_Dom (i_dx i_dy : Int) :
    ∀ (imgs : List (Option ASS_Image)) (regions : List rectangle_t),
      Dom regions (scanPass i_dx i_dy regions imgs).1 := by
  intro imgs
  induction imgs with
  | nil => intro regions; exact Dom_refl regions
  | cons o rest ih =>
    intro regions
    cases o with
    | none => simpa [scanPass] using ih regions
    | some img =>
      simp only [scanPass]
      cases hfb : findBest regions (r_img img) i_dx i_dy with
      | none => simpa [hfb] using ih regions
      | some k =>
        simp only [hfb]
        have hd1 : Dom regions (regions.set k (r_add (regions.getD k default) (r_img img))) :=
          Dom_set regions k _ (findBest_lt hfb) (rsub_add_left _ _)
        have hd2 := ih (regions.set k (r_add (regions.getD k default) (r_img img)))
        exact Dom_trans hd1 hd2

lemma scanPass_mem_rev (i_dx i_dy : Int) :
    ∀ (imgs : List (Option ASS_Image)) (regions : List rectangle_t) (img : ASS_Image),
      some img ∈ (scanPass i_dx i_dy regions imgs).2.1 → some img ∈ imgs := by
  intro imgs
  induction imgs with
  | nil => intro regions img h; exact absurd h (by simp [scanPass])
  | cons o rest ih =>
    intro regions img h
    cases o with
    | none =>
      simp only [scanPass, List.mem_cons] at h
      rcases h with h | h
      · exact absurd h (by simp)
      · exact List.mem_cons_of_mem _ (ih regions img h)
    | some img0 =>
      simp only [scanPass] at h
      cases hfb : findBest regions (r_img img0) i_dx i_dy with
      | none =>
        rw [hfb] at h
        simp only [List.mem_cons] at h
        rcases h with h | h
        · rw [h]; exact List.mem_cons_self _ _
        · exact List.mem_cons_of_mem _ (ih regions img h)
      | some k =>
        rw [hfb] at h
        simp only [List.mem_cons] at h
        rcases h with h | h
        · exact absurd h (by simp)
        · exact List.mem_cons_of_mem _
            (ih (regions.set k (r_add (regions.getD k default) (r_img img0))) img h)

lemma scanPass_cover (i_dx i_dy : Int) :
    ∀ (imgs : List (Option ASS_Image)) (regions : List rectangle_t) (img : ASS_Image),
      some img ∈ imgs →
      some img ∈ (scanPass i_dx i_dy regions imgs).2.1 ∨
        Covered (scanPass i_dx i_dy regions imgs).1 (r_img img) := by
  intro imgs
  induction imgs with
  | nil => intro regions img h; exact absurd h (by simp)
  | cons o rest ih =>
    intro regions img h
    cases o with
    | none =>
      simp only [List.mem_cons] at h
      rcases h with h | h
      · exact absurd h (by simp)
      · rcases ih regions img h with h2 | h2
        · left; simp only [scanPass]; exact List.mem_cons_of_mem _ h2
        · right; simpa [scanPass] using h2
    | some img0 =>
      cases hfb : findBest regions (r_img img0) i_dx i_dy with
      | none =>
        simp only [List.mem_cons] at h
        rcases h with h | h
        · left
          simp only [scanPass, hfb]
          rw [Option.some.injEq] at h
          rw [h]
          exact List.mem_cons_self _ _
        · rcases ih regions img h with h2 | h2
          · left; simp only [scanPass, hfb]; exact List.mem_cons_of_mem _ h2
          · right; simpa [scanPass, hfb] using h2
      | some k =>
        simp only [List.mem_cons] at h
        rcases h with h | h
        · right
          rw [Option.some.injEq] at h
          subst h
          have hmem : r_add (regions.getD k default) (r_img img) ∈
              regions.set k (r_add (regions.getD k default) (r_img img)) :=
            mem_set_self _ _ _ (findBest_lt hfb)
          have hcov : Covered (regions.set k (r_add (regions.getD k default) (r_img img)))
              (r_img img) := ⟨_, hmem, rsub_add_right _ _⟩
          have hd := scanPass_Dom i_dx i_dy rest
            (regions.set k (r_add (regions.getD k default) (r_img img)))
          simpa [scanPass, hfb] using Covered_mono hcov hd
        · rcases ih (regions.set k (r_add (regions.getD k default) (r_img img0))) img h with
            h2 | h2
          · left; simp only [scanPass, hfb]; exact List.mem_cons_of_mem _ h2
          · right; simpa [scanPass, hfb] using h2

lemma scanPass_someCount (i_dx i_dy : Int) :
    ∀ (imgs : List (Option ASS_Image)) (regions : List rectangle_t),
      someCount (scanPass i_dx i_dy regions imgs).2.1 ≤ someCount imgs := by
  intro imgs
  induction imgs with
  | nil => intro regions; simp [scanPass]
  | cons o rest ih =>
    intro regions
    cases o with
    | none =>
      simp only [scanPass, someCount_cons_none]
      exact ih regions
    | some img =>
      cases hfb : findBest regions (r_img img) i_dx i_dy with
      | none =>
        simp only [scanPass, hfb, someCount_cons_some]
        exact Nat.succ_le_succ (ih regions)
      | some k =>
        simp only [scanPass, hfb, someCount_cons_none, someCount_cons_some]
        exact Nat.le_trans
          (ih (regions.set k (r_add (regions.getD k default) (r_img img))))
          (Nat.le_succ _)

lemma scanPass_InB (i_dx i_dy : Int) :
    ∀ (imgs : List (Option ASS_Image)) (regions : List rectangle_t),
      (∀ r ∈ regions, InB r) → (∀ img, some img ∈ imgs → InB (r_img img)) →
      ∀ r ∈ (scanPass i_dx i_dy regions imgs).1, InB r := by
  intro imgs
  induction imgs with
  | nil => intro regions hreg himg r hr; exact hreg r hr
  | cons o rest ih =>
    intro regions hreg himg r hr
    cases o with
    | none =>
      refine ih regions hreg (fun img h => himg img (List.mem_cons_of_mem _ h)) r ?_
      simpa [scanPass] using hr
    | some img0 =>
      cases hfb : findBest regions (r_img img0) i_dx i_dy with
      | none =>
        refine ih regions hreg (fun img h => himg img (List.mem_cons_of_mem _ h)) r ?_
        simpa [scanPass, hfb] using hr
      | some k =>
        have hreg2 : ∀ r2 ∈ regions.set k (r_add (regions.getD k default) (r_img img0)),
            InB r2 := by
          intro r2 hr2
          rcases List.mem_or_eq_of_mem_set hr2 with h2 | h2
          · exact hreg r2 h2
          · rw [h2]
            exact InB_r_add (hreg _ (getD_mem regions k (findBest_lt hfb)))
              (himg img0 (List.mem_cons_self _ _))
        refine ih _ hreg2 (fun img h => himg img (List.mem_cons_of_mem _ h)) r ?_
        simpa [scanPass, hfb] using hr

lemma absorbLoop_length (i_dx i_dy : Int) :
    ∀ (fuel : Nat) (regions : List rectangle_t) (imgs : List (Option ASS_Image)),
      (absorbLoop i_dx i_dy fuel regions imgs).1.length = regions.length := by
  intro fuel
  induction fuel with
  | zero => intro regions imgs; rfl
  | succ fuel ih =>
    intro regions imgs
    simp only [absorbLoop]
    by_cases hb : (scanPass i_dx i_dy regions imgs).2.2 = true
    · rw [if_pos hb, ih]
      exact scanPass_length i_dx i_dy imgs regions
    · rw [if_neg hb]
      exact scanPass_length i_dx i_dy imgs regions

lemma absorbLoop_Dom (i_dx i_dy : Int) :
    ∀ (fuel : Nat) (regions : List rectangle_t) (imgs : List (Option ASS_Image)),
      Dom regions (absorbLoop i_dx i_dy fuel regions imgs).1 := by
  intro fuel
  induction fuel with
  | zero => intro regions imgs; exact Dom_refl regions
  | succ fuel ih =>
    intro regions imgs
    simp only [absorbLoop]
    by_cases hb : (scanPass i_dx i_dy regions imgs).2.2 = true
    · rw [if_pos hb]
      exact Dom_trans (scanPass_Dom i_dx i_dy imgs regions) (ih _ _)
    · rw [if_neg hb]
      exact scanPass_Dom i_dx i_dy imgs regions

lemma absorbLoop_mem_rev (i_dx i_dy : Int) :
    ∀ (fuel : Nat) (regions : List rectangle_t) (imgs : List (Option ASS_Image))
      (img : ASS_Image),
      some img ∈ (absorbLoop i_dx i_dy fuel regions imgs).2 → some img ∈ imgs := by
  intro fuel
  induction fuel with
  | zero => intro regions imgs img h; exact h
  | succ fuel ih =>
    intro regions imgs img h
    simp only [absorbLoop] at h
    by_cases hb : (scanPass i_dx i_dy regions imgs).2.2 = true
    · rw [if_pos hb] at h
      exact scanPass_mem_rev i_dx i_dy imgs regions img (ih _ _ img h)
    · rw [if_neg hb] at h
      exact scanPass_mem_rev i_dx i_dy imgs regions img h

lemma absorbLoop_cover (i_dx i_dy : Int) :
    ∀ (fuel : Nat) (regions : List rectangle_t) (imgs : List (Option ASS_Image))
      (img : ASS_Image),
      some img ∈ imgs →
      some img ∈ (absorbLoop i_dx i_dy fuel regions imgs).2 ∨
        Covered (absorbLoop i_dx i_dy fuel regions imgs).1 (r_img img) := by
  intro fuel
  induction fuel with
  | zero => intro regions imgs img h; exact Or.inl h
  | succ fuel ih =>
    intro regions imgs img h
    simp only [absorbLoop]
    by_cases hb : (scanPass i_dx i_dy regions imgs).2.2 = true
    · rw [if_pos hb]
      rcases scanPass_cover i_dx i_dy imgs regions img h with h2 | h2
      · exact ih _ _ img h2
      · exact Or.inr (Covered_mono h2 (absorbLoop_Dom i_dx i_dy fuel _ _))
    · rw [if_neg hb]
      rcases scanPass_cover i_dx i_dy imgs regions img h with h2 | h2
      · exact Or.inl h2
      · exact Or.inr h2

lemma absorbLoop_someCount (i_dx i_dy : Int) :
    ∀ (fuel : Nat) (regions : List rectangle_t) (imgs : List (Option ASS_Image)),
      someCount (absorbLoop i_dx i_dy fuel regions imgs).2 ≤ someCount imgs := by
  intro fuel
  induction fuel with
  | zero => intro regions imgs; exact Nat.le_refl _
  | succ fuel ih =>
    intro regions imgs
    simp only [absorbLoop]
    by_cases hb : (scanPass i_dx i_dy regions imgs).2.2 = true
    · rw [if_pos hb]
      exact Nat.le_trans (ih _ _) (scanPass_someCount i_dx i_dy imgs regions)
    · rw [if_neg hb]
      exact scanPass_someCount i_dx i_dy imgs regions

lemma absorbLoop_InB (i_dx i_dy : Int) :
    ∀ (fuel : Nat) (regions : List rectangle_t) (imgs : List (Option ASS_Image)),
      (∀ r ∈ regions, InB r) → (∀ img, some img ∈ imgs → InB (r_img img)) →
      ∀ r ∈ (absorbLoop i_dx i_dy fuel regions imgs).1, InB r := by
  intro fuel
  induction fuel with
  | zero => intro regions imgs hreg himg r hr; exact hreg r hr
  | succ fuel ih =>
    intro regions imgs hreg himg r hr
    simp only [absorbLoop] at hr
    by_cases hb : (scanPass i_dx i_dy regions imgs).2.2 = true
    · rw [if_pos hb] at hr
      refine ih _ _ (scanPass_InB i_dx i_dy imgs regions hreg himg)
        (fun img h => himg img (scanPass_mem_rev i_dx i_dy imgs regions img h)) r hr
    · rw [if_neg hb] at hr
      exact scanPass_InB i_dx i_dy imgs regions hreg himg r hr

lemma mem_eraseIdx_of_getElem {α : Type} :
    ∀ (l : List α) (j m : Nat) (hm : m < l.length), m ≠ j → l[m] ∈ l.eraseIdx j := by
  intro l
  induction l with
  | nil => intro j m hm; exact absurd hm (by simp)
  | cons a tl ih =>
    intro j m hm hne
    cases j with
    | zero =>
      cases m with
      | zero => exact absurd rfl hne
      | succ m2 =>
        simp only [List.eraseIdx]
        simpa using List.getElem_mem (l := tl) (by simpa using hm)
    | succ j2 =>
      cases m with
      | zero => simp [List.eraseIdx]
      | succ m2 =>
        simp only [List.eraseIdx, List.getElem_cons_succ, List.mem_cons]
        exact Or.inr (ih j2 m2 (by simpa using hm) (fun h => hne (by rw [h])))

lemma pairList_mem {n i j : Nat} (h : (i, j) ∈ pairList n) : i < j ∧ j < n := by
  unfold pairList at h
  simp only [List.mem_flatMap, List.mem_map] at h
  obtain ⟨i0, hi0, j0, hj0, heq⟩ := h
  injection heq with hi hj
  obtain ⟨m, hm, hget⟩ := List.mem_iff_getElem.mp hj0
  have hlen : m + (i0 + 1) < n := by
    simp only [List.length_drop, List.length_range] at hm
    omega
  have hb2 : i0 + 1 + m < (List.range n).length := by
    simp only [List.length_range]
    omega
  have hdg : ((List.range n).drop (i0 + 1))[m] = (List.range n)[i0 + 1 + m] :=
    List.getElem_drop (List.range n)
  rw [hdg, List.getElem_range] at hget
  omega

lemma bestPair_foldl_some (l : List rectangle_t) :
    ∀ (pairs : List (Nat × Nat)) (acc : Int × Option (Nat × Nat)) (ij : Nat × Nat),
      ((pairs.foldl
        (fun acc p => if ds_of l p.1 p.2 < acc.1 then (ds_of l p.1 p.2, some p) else acc)
        acc).2 = some ij) →
      acc.2 = some ij ∨ ij ∈ pairs := by
  intro pairs
  induction pairs with
  | nil => intro acc ij h; exact Or.inl h
  | cons p rest ih =>
    intro acc ij h
    simp only [List.foldl_cons] at h
    rcases ih _ ij h with h2 | h2
    · by_cases hlt : ds_of l p.1 p.2 < acc.1
      · rw [if_pos hlt] at h2
        simp only [Option.some.injEq] at h2
        right
        rw [← h2]
        exact List.mem_cons_self _ _
      · rw [if_neg hlt] at h2
        exact Or.inl h2
    · exact Or.inr (List.mem_cons_of_mem _ h2)

lemma bestPair_foldl_isSome (l : List rectangle_t) :
    ∀ (pairs : List (Nat × Nat)) (acc : Int × Option (Nat × Nat)),
      acc.2.isSome = true →
      ((pairs.foldl
        (fun acc p => if ds_of l p.1 p.2 < acc.1 then (ds_of l p.1 p.2, some p) else acc)
        acc).2).isSome = true := by
  intro pairs
  induction pairs with
  | nil => intro acc h; exact h
  | cons p rest ih =>
    intro acc h
    simp only [List.foldl_cons]
    by_cases hlt : ds_of l p.1 p.2 < acc.1
    · rw [if_pos hlt]
      exact ih _ (by simp)
    · rw [if_neg hlt]
      exact ih _ h

lemma bestPair_mem {l : List rectangle_t} {ij : Nat × Nat}
    (h : bestPair l = some ij) : ij ∈ pairList l.length := by
  unfold bestPair at h
  rcases bestPair_foldl_some l (pairList l.length) (C_INT_MAX, none) ij h with h2 | h2
  · exact absurd h2 (by simp)
  · exact h2

lemma zero_one_mem_pairList {n : Nat} (hn : 2 ≤ n) : ((0, 1) : Nat × Nat) ∈ pairList n := by
  unfold pairList
  simp only [List.mem_flatMap, List.mem_map]
  refine ⟨0, List.mem_range.mpr (by omega), 1, ?_, rfl⟩
  refine List.mem_iff_getElem.mpr ⟨0, ?_, ?_⟩
  · simp only [List.length_drop, List.length_range]
    omega
  · have hb1 : 0 < ((List.range n).drop 1).length := by
      simp only [List.length_drop, List.length_range]
      omega
    have hb2 : 1 + 0 < (List.range n).length := by
      simp only [List.length_range]
      omega
    have h1 : ((List.range n).drop 1)[0] = (List.range n)[1 + 0] :=
      List.getElem_drop (List.range n)
    rw [h1, List.getElem_range]

lemma ds_of_small {l : List rectangle_t} (hInB : ∀ r ∈ l, InB r) (h2 : 2 ≤ l.length) :
    ds_of l 0 1 < C_INT_MAX := by
  have h0 : InB (l.getD 0 default) := hInB _ (getD_mem l 0 (by omega))
  have h1 : InB (l.getD 1 default) := hInB _ (getD_mem l 1 (by omega))
  have hu := InB_surface (InB_r_add h0 h1)
  have hs0 := InB_surface h0
  have hs1 := InB_surface h1
  unfold ds_of C_INT_MAX
  omega

lemma bestPair_foldl_progress (l : List rectangle_t) :
    ∀ (pairs : List (Nat × Nat)) (acc : Int × Option (Nat × Nat)),
      ((∃ p ∈ pairs, ds_of l p.1 p.2 < acc.1) ∨ acc.2.isSome = true) →
      ((pairs.foldl
        (fun acc p => if ds_of l p.1 p.2 < acc.1 then (ds_of l p.1 p.2, some p) else acc)
        acc).2).isSome = true := by
  intro pairs
  induction pairs with
  | nil =>
    intro acc h
    rcases h with ⟨p, hp, _⟩ | h
    · exact absurd hp (by simp)
    · exact h
  | cons p rest ih =>
    intro acc h
    simp only [List.foldl_cons]
    by_cases hlt : ds_of l p.1 p.2 < acc.1
    · rw [if_pos hlt]
      exact ih _ (Or.inr (by simp))
    · rw [if_neg hlt]
      rcases h with ⟨q, hq, hdq⟩ | h
      · rcases List.mem_cons.mp hq with hq2 | hq2
        · exact absurd (hq2 ▸ hdq) hlt
        · exact ih _ (Or.inl ⟨q, hq2, hdq⟩)
      · exact ih _ (Or.inr h)

lemma bestPair_exists {l : List rectangle_t} (h2 : 2 ≤ l.length)
    (hInB : ∀ r ∈ l, InB r) : ∃ ij, bestPair l = some ij := by
  have hprog := bestPair_foldl_progress l (pairList l.length)
    (C_INT_MAX, (none : Option (Nat × Nat)))
    (Or.inl ⟨(0, 1), zero_one_mem_pairList h2, ds_of_small hInB h2⟩)
  unfold bestPair
  cases h : ((pairList l.length).foldl
      (fun acc p => if ds_of l p.1 p.2 < acc.1 then (ds_of l p.1 p.2, some p) else acc)
      (C_INT_MAX, (none : Option (Nat × Nat)))).2 with
  | none => rw [h] at hprog; exact absurd hprog (by simp)
  | some ij => exact ⟨ij, rfl⟩

lemma collapseOnce_Dom (l : List rectangle_t) : Dom l (collapseOnce l) := by
  unfold collapseOnce
  cases h : bestPair l with
  | none => exact Dom_refl l
  | some ij =>
    obtain ⟨hij, hjn⟩ := pairList_mem (bestPair_mem h)
    intro r hr
    obtain ⟨m, hm, rfl⟩ := List.mem_iff_getElem.mp hr
    have hisetlen : ij.1 < (l.set ij.1
        (r_add (l.getD ij.1 default) (l.getD ij.2 default))).length := by
      simpa using (by omega : ij.1 < l.length)
    have hvmem : r_add (l.getD ij.1 default) (l.getD ij.2 default) ∈
        (l.set ij.1 (r_add (l.getD ij.1 default) (l.getD ij.2 default))).eraseIdx ij.2 := by
      have hge := List.getElem_set_self hisetlen
      have hmem := mem_eraseIdx_of_getElem _ ij.2 ij.1 hisetlen (by omega)
      rwa [hge] at hmem
    by_cases hmi : m = ij.1
    · subst hmi
      refine ⟨_, hvmem, ?_⟩
      rw [← List.getD_eq_getElem l default hm]
      exact rsub_add_left _ _
    · by_cases hmj : m = ij.2
      · subst hmj
        refine ⟨_, hvmem, ?_⟩
        rw [← List.getD_eq_getElem l default hm]
        exact rsub_add_right _ _
      · refine ⟨l[m], ?_, rsub_refl _⟩
        have hmlen : m < (l.set ij.1
            (r_add (l.getD ij.1 default) (l.getD ij.2 default))).length := by simpa using hm
        have hset : (l.set ij.1
            (r_add (l.getD ij.1 default) (l.getD ij.2 default)))[m] = l[m] :=
          List.getElem_set_ne (fun he => hmi he.symm) hmlen
        have hmem := mem_eraseIdx_of_getElem _ ij.2 m hmlen hmj
        rwa [hset] at hmem

lemma collapseOnce_length {l : List rectangle_t} (h2 : 2 ≤ l.length)
    (hInB : ∀ r ∈ l, InB r) : (collapseOnce l).length = l.length - 1 := by
  obtain ⟨ij, h⟩ := bestPair_exists h2 hInB
  obtain ⟨hij, hjn⟩ := pairList_mem (bestPair_mem h)
  unfold collapseOnce
  rw [h]
  simp [List.length_eraseIdx, List.length_set, hjn]

lemma collapseOnce_InB {l : List rectangle_t} (hInB : ∀ r ∈ l, InB r) :
    ∀ r ∈ collapseOnce l, InB r := by
  unfold collapseOnce
  cases h : bestPair l with
  | none => exact hInB
  | some ij =>
    obtain ⟨hij, hjn⟩ := pairList_mem (bestPair_mem h)
    intro r hr
    have hr2 : r ∈ l.set ij.1 (r_add (l.getD ij.1 default) (l.getD ij.2 default)) :=
      List.eraseIdx_subset _ _ hr
    rcases List.mem_or_eq_of_mem_set hr2 with h3 | h3
    · exact hInB r h3
    · rw [h3]
      exact InB_r_add (hInB _ (getD_mem l ij.1 (by omega))) (hInB _ (getD_mem l ij.2 hjn))

lemma firstSome_getElem :
    ∀ (imgs : List (Option ASS_Image)) (n : Nat) (img0 : ASS_Image),
      firstSome imgs = some (n, img0) →
      n < imgs.length ∧ imgs.getD n none = some img0 := by
  intro imgs
  induction imgs with
  | nil => intro n img0 h; exact absurd h (by simp [firstSome])
  | cons o rest ih =>
    intro n img0 h
    cases o with
    | some img =>
      simp only [firstSome, Option.some.injEq] at h
      obtain ⟨h1, h2⟩ : 0 = n ∧ img = img0 := by
        injection h with ha hb
        exact ⟨ha, hb⟩
      subst h1
      refine ⟨by simp, ?_⟩
      simpa [List.getD_cons_zero] using h2
    | none =>
      simp only [firstSome] at h
      cases hf : firstSome rest with
      | none => rw [hf] at h; exact absurd h (by simp)
      | some t =>
        rw [hf] at h
        obtain ⟨h1, h2⟩ : t.1 + 1 = n ∧ t.2 = img0 := by
          have h3 : some (t.1 + 1, t.2) = some (n, img0) := h
          injection h3 with h4
          injection h4 with ha hb
          exact ⟨ha, hb⟩
        obtain ⟨hlt, hget⟩ := ih t.1 t.2 (by rw [hf])
        subst h1
        refine ⟨by simp only [List.length_cons]; omega, ?_⟩
        simp only [List.getD_cons_succ]
        rw [hget, h2]

lemma firstSome_none :
    ∀ (imgs : List (Option ASS_Image)), firstSome imgs = none →
      ∀ img : ASS_Image, some img ∉ imgs := by
  intro imgs
  induction imgs with
  | nil => intro _ img h; exact absurd h (by simp)
  | cons o rest ih =>
    intro h img hmem
    cases o with
    | some img0 => exact absurd h (by simp [firstSome])
    | none =>
      simp only [firstSome] at h
      cases hf : firstSome rest with
      | some t => rw [hf] at h; exact absurd h (by simp)
      | none =>
        rcases List.mem_cons.mp hmem with h2 | h2
        · exact absurd h2 (by simp)
        · exact ih hf img h2

lemma someCount_set_none :
    ∀ (imgs : List (Option ASS_Image)) (n : Nat) (img0 : ASS_Image),
      n < imgs.length → imgs.getD n none = some img0 →
      someCount (imgs.set n none) + 1 = someCount imgs := by
  intro imgs
  induction imgs with
  | nil => intro n img0 hn; exact absurd hn (by simp)
  | cons o rest ih =>
    intro n img0 hn hget
    cases n with
    | zero =>
      simp only [List.getD_cons_zero] at hget
      rw [hget]
      simp only [List.set_cons_zero, someCount_cons_none, someCount_cons_some]
    | succ n2 =>
      simp only [List.getD_cons_succ] at hget
      have := ih n2 img0 (by simpa using hn) hget
      cases o with
      | none =>
        simp only [List.set_cons_succ, someCount_cons_none]
        exact this
      | some i2 =>
        simp only [List.set_cons_succ, someCount_cons_some]
        omega

lemma mem_set_none_of_ne {imgs : List (Option ASS_Image)} {n : Nat} {img0 img : ASS_Image}
    (hmem : some img ∈ imgs) (hn : n < imgs.length) (hget : imgs.getD n none = some img0)
    (hne : img ≠ img0) : some img ∈ imgs.set n none := by
  rw [List.getD_eq_getElem imgs none hn] at hget
  obtain ⟨m, hm, hg⟩ := List.mem_iff_getElem.mp hmem
  by_cases hmn : m = n
  · subst hmn
    rw [hg] at hget
    exact absurd (by injection hget) hne
  · have hmlen : m < (imgs.set n none).length := by simpa using hm
    have hset : (imgs.set n none)[m] = imgs[m] :=
      List.getElem_set_ne (fun he => hmn he.symm) hmlen
    have hmem2 : (imgs.set n none)[m] ∈ imgs.set n none := List.getElem_mem hmlen
    rwa [hset, hg] at hmem2

lemma buildLoop_bound (i_max_region i_dx i_dy : Int) (hk : 1 ≤ i_max_region) :
    ∀ (fuel : Nat) (regions : List rectangle_t) (imgs : List (Option ASS_Image)),
      ((regions.length : Int) ≤ i_max_region) →
      (∀ r ∈ regions, InB r) →
      (∀ img, some img ∈ imgs → InB (r_img img)) →
      ((buildLoop i_max_region i_dx i_dy fuel regions imgs).length : Int) ≤ i_max_region := by
  intro fuel
  induction fuel with
  | zero => intro regions imgs hlen _ _; exact hlen
  | succ fuel ih =>
    intro regions imgs hlen hreg himg
    simp only [buildLoop]
    cases hfs : firstSome imgs with
    | none => exact hlen
    | some t =>
      dsimp only
      obtain ⟨hn, hget⟩ := firstSome_getElem imgs t.1 t.2 hfs
      have himgmem : some t.2 ∈ imgs := by
        have hg2 : imgs[t.1] = some t.2 := by
          rw [← List.getD_eq_getElem imgs none hn]
          exact hget
        rw [← hg2]
        exact List.getElem_mem hn
      have hreg1 : ∀ r ∈ regions ++ [r_img t.2], InB r := by
        intro r hr
        rcases List.mem_append.mp hr with h | h
        · exact hreg r h
        · rw [List.mem_singleton.mp h]
          exact himg _ himgmem
      have himg1 : ∀ img, some img ∈ imgs.set t.1 none → InB (r_img img) := by
        intro img h
        rcases List.mem_or_eq_of_mem_set h with h2 | h2
        · exact himg img h2
        · exact absurd h2 (by simp)
      have hulen : (absorbLoop i_dx i_dy (someCount (imgs.set t.1 none) + 1)
          (regions ++ [r_img t.2]) (imgs.set t.1 none)).1.length = regions.length + 1 := by
        rw [absorbLoop_length]
        simp
      have huInB : ∀ r ∈ (absorbLoop i_dx i_dy (someCount (imgs.set t.1 none) + 1)
          (regions ++ [r_img t.2]) (imgs.set t.1 none)).1, InB r :=
        absorbLoop_InB i_dx i_dy _ _ _ hreg1 himg1
      have humem : ∀ img, some img ∈ (absorbLoop i_dx i_dy (someCount (imgs.set t.1 none) + 1)
          (regions ++ [r_img t.2]) (imgs.set t.1 none)).2 → InB (r_img img) := fun img h =>
        himg1 img (absorbLoop_mem_rev i_dx i_dy _ _ _ img h)
      by_cases hc : i_max_region < (((absorbLoop i_dx i_dy (someCount (imgs.set t.1 none) + 1)
          (regions ++ [r_img t.2]) (imgs.set t.1 none)).1.length : Int))
      · rw [if_pos hc]
        have h2 : 2 ≤ (absorbLoop i_dx i_dy (someCount (imgs.set t.1 none) + 1)
            (regions ++ [r_img t.2]) (imgs.set t.1 none)).1.length := by omega
        have hclen := collapseOnce_length h2 huInB
        refine ih _ _ ?_ (collapseOnce_InB huInB) humem
        rw [hclen, hulen]
        push_cast
        omega
      · rw [if_neg hc]
        exact ih _ _ (by omega) huInB humem

lemma buildLoop_coverage (i_max_region i_dx i_dy : Int) :
    ∀ (fuel : Nat) (regions : List rectangle_t) (imgs : List (Option ASS_Image)),
      someCount imgs ≤ fuel →
      ∀ s, (Covered regions s ∨ ∃ img, some img ∈ imgs ∧ r_img img = s) →
      Covered (buildLoop i_max_region i_dx i_dy fuel regions imgs) s := by
  intro fuel
  induction fuel with
  | zero =>
    intro regions imgs hfuel s hs
    rcases hs with hs | ⟨img, hmem, _⟩
    · exact hs
    · exfalso
      have h0 := List.countP_eq_zero.mp (Nat.le_zero.mp hfuel)
      exact absurd (h0 _ hmem) (by simp)
  | succ fuel ih =>
    intro regions imgs hfuel s hs
    simp only [buildLoop]
    cases hfs : firstSome imgs with
    | none =>
      rcases hs with hs | ⟨img, hmem, _⟩
      · exact hs
      · exact absurd hmem (firstSome_none imgs hfs img)
    | some t =>
      dsimp only
      obtain ⟨hn, hget⟩ := firstSome_getElem imgs t.1 t.2 hfs
      have hdec : someCount (imgs.set t.1 none) + 1 = someCount imgs :=
        someCount_set_none imgs t.1 t.2 hn hget
      have hfuel2 : someCount (absorbLoop i_dx i_dy (someCount (imgs.set t.1 none) + 1)
          (regions ++ [r_img t.2]) (imgs.set t.1 none)).2 ≤ fuel := by
        have := absorbLoop_someCount i_dx i_dy (someCount (imgs.set t.1 none) + 1)
          (regions ++ [r_img t.2]) (imgs.set t.1 none)
        omega
      have hd1 : Dom (regions ++ [r_img t.2])
          (absorbLoop i_dx i_dy (someCount (imgs.set t.1 none) + 1)
            (regions ++ [r_img t.2]) (imgs.set t.1 none)).1 :=
        absorbLoop_Dom i_dx i_dy _ _ _
      have hd2 : Dom (absorbLoop i_dx i_dy (someCount (imgs.set t.1 none) + 1)
            (regions ++ [r_img t.2]) (imgs.set t.1 none)).1
          (if i_max_region < (((absorbLoop i_dx i_dy (someCount (imgs.set t.1 none) + 1)
              (regions ++ [r_img t.2]) (imgs.set t.1 none)).1.length : Int)) then
            collapseOnce (absorbLoop i_dx i_dy (someCount (imgs.set t.1 none) + 1)
              (regions ++ [r_img t.2]) (imgs.set t.1 none)).1
          else (absorbLoop i_dx i_dy (someCount (imgs.set t.1 none) + 1)
              (regions ++ [r_img t.2]) (imgs.set t.1 none)).1) := by
        split
        · exact collapseOnce_Dom _
        · exact Dom_refl _
      refine ih _ _ hfuel2 s ?_
      rcases hs with hs | ⟨img, hmem, hseq⟩
      · left
        exact Covered_mono (Covered_mono (Covered_mono hs
          (Dom_append regions [r_img t.2])) hd1) hd2
      · by_cases heq : img = t.2
        · left
          have hcov1 : Covered (regions ++ [r_img t.2]) s := by
            refine ⟨r_img t.2, List.mem_append_right _ (List.mem_singleton_self _), ?_⟩
            rw [← hseq, heq]
            exact rsub_refl _
          exact Covered_mono (Covered_mono hcov1 hd1) hd2
        · have hmem1 : some img ∈ imgs.set t.1 none := mem_set_none_of_ne hmem hn hget heq
          rcases absorbLoop_cover i_dx i_dy (someCount (imgs.set t.1 none) + 1)
              (regions ++ [r_img t.2]) (imgs.set t.1 none) img hmem1 with h2 | h2
          · right
            exact ⟨img, h2, hseq⟩
          · left
            rw [← hseq]
            exact Covered_mono h2 hd2

/-- C3: for every fragment list whose fragments lie inside a
32768x32768 canvas (so that the `int` surface arithmetic of the C code
is exact and the INT_MAX sentinel of the collapse search is always
beaten) and every `maxRegions = k >= 1`, the partitioner returns at
most `k` rectangles: the cap is exceeded only transiently, and each
over-cap event removes exactly one region through the cheapest-pair
collapse. -/
theorem C3_region_count_bound (i_max_region : Int) (p_img_list : List ASS_Image)
    (i_width i_height : Int) (hk : 1 ≤ i_max_region)
    (hb : ∀ p ∈ p_img_list, 0 ≤ p.dst_x ∧ 0 ≤ p.dst_y ∧
      p.dst_x + p.w ≤ 32768 ∧ p.dst_y + p.h ≤ 32768) :
    ((BuildRegions i_max_region p_img_list i_width i_height).length : Int) ≤ i_max_region := by
  by_cases hpos :
    (p_img_list.filter fun p => decide (0 < p.w) && decide (0 < p.h)).length = 0
  · unfold BuildRegions
    rw [if_pos hpos]
    simp only [List.length_nil, Nat.cast_zero]
    omega
  · unfold BuildRegions
    rw [if_neg hpos]
    refine buildLoop_bound i_max_region _ _ hk _ [] _ (by simp; omega)
      (fun r hr => absurd hr (by simp)) ?_
    intro img hmem
    rw [List.mem_map] at hmem
    obtain ⟨img2, hmem2, heq⟩ := hmem
    have himg2 : img2 = img := by injection heq
    rw [List.mem_filter] at hmem2
    obtain ⟨hmemo, hcond⟩ := hmem2
    simp only [Bool.and_eq_true, decide_eq_true_eq] at hcond
    obtain ⟨hw, hh⟩ := hcond
    obtain ⟨h1, h2, h3, h4⟩ := hb img2 hmemo
    rw [← himg2]
    simp only [InB, r_img, r_create]
    refine ⟨h1, by omega, by omega, h2, by omega, by omega⟩

theorem C3_witness : ((BuildRegions 3 fragsC1 100 100).length : Int) ≤ 3 :=
  C3_region_count_bound 3 fragsC1 100 100 (by decide) (by decide)

/-- C4: every input fragment with positive width and positive height
has its bounding box contained in some rectangle of the partitioner's
final output (full coverage; non-positive fragments are filtered out
before processing). -/
theorem C4_coverage (i_max_region : Int) (p_img_list : List ASS_Image)
    (i_width i_height : Int) (img : ASS_Image)
    (hmem : img ∈ p_img_list) (hw : 0 < img.w) (hh : 0 < img.h) :
    ∃ rect ∈ BuildRegions i_max_region p_img_list i_width i_height,
      rsub (r_img img) rect := by
  have hmemf : img ∈ p_img_list.filter fun p => decide (0 < p.w) && decide (0 < p.h) :=
    List.mem_filter.mpr ⟨hmem, by simp [hw, hh]⟩
  have hposne :
      ¬ (p_img_list.filter fun p => decide (0 < p.w) && decide (0 < p.h)).length = 0 := by
    intro h0
    rw [List.length_eq_zero] at h0
    rw [h0] at hmemf
    exact absurd hmemf (by simp)
  unfold BuildRegions
  rw [if_neg hposne]
  have hsc : someCount ((p_img_list.filter
      fun p => decide (0 < p.w) && decide (0 < p.h)).map some) =
      (p_img_list.filter fun p => decide (0 < p.w) && decide (0 < p.h)).length := by
    unfold someCount
    rw [List.countP_map]
    simp [Function.comp]
  refine buildLoop_coverage i_max_region _ _ _ [] _ (by rw [hsc]) (r_img img) ?_
  right
  exact ⟨img, List.mem_map_of_mem some hmemf, rfl⟩

theorem C4_witness :
    (⟨5, 6, 3, 2, 0, [], 0⟩ : ASS_Image) ∈
        [(⟨5, 6, 3, 2, 0, [], 0⟩ : ASS_Image), ⟨200, 200, 10, 10, 0, [], 0⟩] ∧
      ∃ rect ∈ BuildRegions 4 [⟨5, 6, 3, 2, 0, [], 0⟩, ⟨200, 200, 10, 10, 0, [], 0⟩] 1000 1000,
        rsub (r_img ⟨5, 6, 3, 2, 0, [], 0⟩) rect :=
  ⟨by decide,
    C4_coverage 4 [⟨5, 6, 3, 2, 0, [], 0⟩, ⟨200, 200, 10, 10, 0, [], 0⟩] 1000 1000
      ⟨5, 6, 3, 2, 0, [], 0⟩ (by decide) (by decide) (by decide)⟩
